import Mathlib

/-!
# DocuCTRL RBAC core — shallow embedding and verification

This file embeds the authorization core of the DocuCTRL repository
(`src/app/rbac.py` together with the role/permission route handlers of
`src/app/main.py`) as executable Lean definitions over an explicit
relational store, and proves properties of those definitions.

Modelling conventions:
* The SQLAlchemy session/database is modelled by an explicit `Store` value
  holding the rows of each table (`roles`, `permissions`, `role_permissions`,
  `user_roles`, `user_permissions`) plus the ids of existing projects and
  users (only their existence is consulted by the embedded code).
* SQL `query(...).first()` becomes `List.find?`; `query(...).all()` with a
  filter becomes `List.filter`; inner joins on foreign keys become
  `List.filterMap` with a `find?` on the joined table.
* Python sets of permission-name strings become `Finset String`.
* `raise HTTPException(...)` becomes `Except.error` carrying an `RbacError`
  classified by the spec's error taxonomy (`NotFound`, `Conflict`,
  `PermissionDenied`, `ValidationError`); the `sorted(...)`-joined names
  interpolated into a detail string are carried as the finite set of names.
* Freshly inserted rows receive the successor of the maximal existing id,
  standing for the database-assigned primary key.
-/

namespace DocuCTRL

/-- `models.Role` row: id, unique name, description. -/
structure Role where
  id : Nat
  name : String
  description : String
deriving DecidableEq, Repr

/-- `models.Permission` row: id, unique name, resource, action. -/
structure Permission where
  id : Nat
  name : String
  resource : String
  action : String
deriving DecidableEq, Repr

/-- `models.RolePermission` row: the role→permission many-to-many edge. -/
structure RolePermission where
  role_id : Nat
  permission_id : Nat
deriving DecidableEq, Repr

/-- `models.UserRole` row: (user, role, scope); `project_id = none` is the
global scope marker. -/
structure UserRole where
  id : Nat
  user_id : Nat
  role_id : Nat
  project_id : Option Nat
deriving DecidableEq, Repr

/-- `models.UserPermission` row: a direct per-user grant, always
project-scoped (`project_id` is NOT NULL in the model). -/
structure UserPermission where
  id : Nat
  user_id : Nat
  permission_id : Nat
  project_id : Nat
deriving DecidableEq, Repr

/-- The relational state read and written by the RBAC core: one list of rows
per table, plus the ids of projects and users (whose rows the handlers only
test for existence). -/
structure Store where
  projects : List Nat
  users : List Nat
  roles : List Role
  permissions : List Permission
  rolePermissions : List RolePermission
  userRoles : List UserRole
  userPermissions : List UserPermission
deriving DecidableEq, Repr

/- Permission-name constants from `rbac.Permissions` (the ones this
development mentions by name). -/
namespace Permissions

def DOCUMENT_UPLOAD : String := "document:upload"
def DOCUMENT_READ : String := "document:read"
def DOCUMENT_UPDATE : String := "document:update"
def DOCUMENT_DELETE : String := "document:delete"
def DOCUMENT_DOWNLOAD : String := "document:download"
def PROJECT_CREATE : String := "project:create"
def PROJECT_READ : String := "project:read"
def PROJECT_UPDATE : String := "project:update"
def PROJECT_DELETE : String := "project:delete"
def PROJECT_MANAGE : String := "project:manage"
def USER_CREATE : String := "user:create"
def USER_READ : String := "user:read"
def USER_UPDATE : String := "user:update"
def USER_DELETE : String := "user:delete"
def USER_INVITE : String := "user:invite"
def USER_MANAGE : String := "user:manage"
def ROLE_CREATE : String := "role:create"
def ROLE_READ : String := "role:read"
def ROLE_UPDATE : String := "role:update"
def ROLE_DELETE : String := "role:delete"
def ROLE_MANAGE : String := "role:manage"
def ROLE_ASSIGN : String := "role:assign"
def COMPANY_CREATE : String := "company:create"
def COMPANY_READ : String := "company:read"
def COMPANY_UPDATE : String := "company:update"
def COMPANY_DELETE : String := "company:delete"
def COMPANY_MANAGE : String := "company:manage"
def ADMIN_ALL : String := "admin:all"
def SYSTEM_SETTINGS : String := "system:settings"

end Permissions

/-- `rbac.ROLE_HIERARCHY`: the fixed role hierarchy, highest authority
first. -/
def ROLE_HIERARCHY : List String := ["admin", "manager", "uploader", "viewer"]

/-- `rbac.get_role_rank`: zero-based position of the role in the hierarchy;
the sentinel `len(ROLE_HIERARCHY)` for `None`, the empty string (falsy in
Python) and any name outside the hierarchy.  `List.indexOf` returns the
list length when the element is absent, exactly matching
`ROLE_RANK.get(role_name, len(ROLE_HIERARCHY))`. -/
def get_role_rank (role_name : Option String) : Nat :=
  match role_name with
  | none => ROLE_HIERARCHY.length
  | some name =>
      if name = "" then ROLE_HIERARCHY.length
      else ROLE_HIERARCHY.indexOf name

/-- `rbac.get_user_roles`: roles assigned to `user_id` for exactly the given
scope.  NOTE: the source short-circuits to `[]` when `project_id is None`,
so globally scoped assignments are never returned; otherwise it joins
`roles` with `user_roles` filtered on user and project and takes distinct
rows (modelled by deduplicating the role ids before resolving them). -/
def get_user_roles (s : Store) (user_id : Nat) (project_id : Option Nat) :
    List Role :=
  match project_id with
  | none => []
  | some pid =>
      let urs := s.userRoles.filter
        (fun ur => ur.user_id == user_id && ur.project_id == some pid)
      ((urs.map (fun ur => ur.role_id)).eraseDups).filterMap
        (fun rid => s.roles.find? (fun r => r.id == rid))

/-- The names of the permissions reachable from one role via its
`role.permissions` relationship (`RolePermission` rows joined to
`Permission` rows). -/
def role_permission_names (s : Store) (r : Role) : Finset String :=
  ((s.rolePermissions.filter (fun rp => rp.role_id == r.id)).filterMap
    (fun rp => (s.permissions.find? (fun p => p.id == rp.permission_id)).map
      Permission.name)).toFinset

/-- The names of the direct `UserPermission` grants of `(user_id, pid)`,
joined to `Permission` rows (the query in `rbac.get_user_permissions`). -/
def direct_permission_names (s : Store) (user_id pid : Nat) : Finset String :=
  ((s.userPermissions.filter
      (fun up => up.user_id == user_id && up.project_id == pid)).filterMap
    (fun up => (s.permissions.find? (fun p => p.id == up.permission_id)).map
      Permission.name)).toFinset

/-- `rbac.get_user_permissions`: the effective permission set — names of the
permissions of every role from `get_user_roles`, plus, when a concrete
project scope is given, the names of the direct grants for that project. -/
def get_user_permissions (s : Store) (user_id : Nat)
    (project_id : Option Nat) : Finset String :=
  let roles := get_user_roles s user_id project_id
  let fromRoles := roles.foldl (fun acc r => acc ∪ role_permission_names s r) ∅
  match project_id with
  | none => fromRoles
  | some pid => fromRoles ∪ direct_permission_names s user_id pid

/-- `rbac.has_permission`: true when the user holds `admin:all` for the
scope, else true exactly when the permission itself is held. -/
def has_permission (s : Store) (user_id : Nat) (permission : String)
    (project_id : Option Nat) : Bool :=
  let user_perms := get_user_permissions s user_id project_id
  if Permissions.ADMIN_ALL ∈ user_perms then true
  else decide (permission ∈ user_perms)

/-- One step of the best-role scan in `rbac.get_user_highest_role`: keep the
candidate with the strictly smaller rank. -/
def highest_role_step (acc : Option String × Nat) (r : Role) :
    Option String × Nat :=
  let rank := get_role_rank (some r.name)
  if rank < acc.2 then (some r.name, rank) else acc

/-- `rbac.get_user_highest_role`: `None` on an empty role list, otherwise a
linear scan starting from `(None, len(ROLE_HIERARCHY))` that updates only on
a strictly smaller rank. -/
def get_user_highest_role (s : Store) (user_id : Nat)
    (project_id : Option Nat) : Option String :=
  let user_roles := get_user_roles s user_id project_id
  if user_roles = [] then none
  else
    (user_roles.foldl highest_role_step
      ((none : Option String), ROLE_HIERARCHY.length)).1

/-- The spec's error taxonomy (§7), the kinds under which the concrete
`HTTPException`s raised by the source are classified.  `permissionDenied`
and `validationError` additionally carry the set of permission names
interpolated (sorted) into the detail string (empty when the detail names
no permissions). -/
inductive RbacError where
  | notFound (detail : String)
  | conflict (detail : String)
  | permissionDenied (detail : String) (names : Finset String)
  | validationError (detail : String) (names : Finset String)
deriving DecidableEq

instance {α β : Type} [DecidableEq α] [DecidableEq β] :
    DecidableEq (Except α β)
  | .error a, .error b =>
      if h : a = b then isTrue (by rw [h])
      else isFalse (fun he => h (by injection he))
  | .error _, .ok _ => isFalse (fun he => Except.noConfusion he)
  | .ok _, .error _ => isFalse (fun he => Except.noConfusion he)
  | .ok a, .ok b =>
      if h : a = b then isTrue (by rw [h])
      else isFalse (fun he => h (by injection he))

/-- Database-assigned primary key for a fresh `user_roles` row. -/
def next_user_role_id (s : Store) : Nat :=
  ((s.userRoles.map (fun ur => ur.id)).foldl max 0) + 1

/-- Database-assigned primary key for a fresh `user_permissions` row. -/
def next_user_permission_id (s : Store) : Nat :=
  ((s.userPermissions.map (fun up => up.id)).foldl max 0) + 1

/-- `rbac.assign_role_to_user`.  Requires a concrete project
(`HTTPException 400`, a `ValidationError` kind, otherwise); `NotFound` when
the role name has no row; `Conflict` (`HTTPException 400`) when the target
already holds any role for the project; then a second (unreachable after
the first) duplicate check; otherwise inserts and returns the new
`UserRole` row.  The `admin_user_id` argument is received but never read by
the source. -/
def assign_role_to_user (s : Store) (user_id : Nat) (role_name : String)
    (project_id : Option Nat) (admin_user_id : Option Nat) :
    Except RbacError (UserRole × Store) :=
  match project_id with
  | none =>
      .error (.validationError "project_id is required for role assignment" ∅)
  | some pid =>
      match s.roles.find? (fun r => r.name == role_name) with
      | none => .error (.notFound ("Role '" ++ role_name ++ "' not found"))
      | some role =>
          if (s.userRoles.find? (fun ur =>
              ur.user_id == user_id && ur.project_id == some pid)).isSome then
            .error (.conflict "User already has a role for this project")
          else if (s.userRoles.find? (fun ur =>
              ur.user_id == user_id && ur.role_id == role.id &&
              ur.project_id == some pid)).isSome then
            .error (.conflict ("User already has role '" ++ role_name ++
              "' for this project"))
          else
            let user_role : UserRole :=
              ⟨next_user_role_id s, user_id, role.id, some pid⟩
            .ok (user_role, { s with userRoles := s.userRoles ++ [user_role] })

/-- `main.assign_user_role_to_project` (route handler body, after the
route-layer `require_role_assign` dependency): existence checks on project
and target user, the actor-standing and escalation guards, then
`assign_role_to_user` with the actor as `admin_user_id`. -/
def assign_user_role_to_project (s : Store) (current_user_id : Nat)
    (project_id : Nat) (user_id : Nat) (role_name : String) :
    Except RbacError (UserRole × Store) :=
  if project_id ∉ s.projects then .error (.notFound "Project not found")
  else if user_id ∉ s.users then .error (.notFound "User not found")
  else
    match get_user_highest_role s current_user_id (some project_id) with
    | none =>
        .error (.permissionDenied "Cannot assign role without a project role" ∅)
    | some current_role =>
        let current_rank := get_role_rank (some current_role)
        let target_rank := get_role_rank (some role_name)
        let current_perms := get_user_permissions s current_user_id (some project_id)
        if target_rank < current_rank ∧ Permissions.ADMIN_ALL ∉ current_perms then
          .error (.permissionDenied "Cannot assign a higher role" ∅)
        else
          assign_role_to_user s user_id role_name (some project_id)
            (some current_user_id)

/-- Python's `str.strip()`: drop leading and trailing whitespace
(an executable model; `String.trim` itself is not kernel-reducible). -/
def strip (t : String) : String :=
  ⟨((t.data.dropWhile Char.isWhitespace).reverse.dropWhile
      Char.isWhitespace).reverse⟩

/-- The normalized requested-permission set of
`main.set_user_permissions_for_project`: the stripped names of the payload
with empty (falsy) entries dropped. -/
def requested_permissions (payload : List String) : Finset String :=
  ((payload.map strip).filter (fun n => n ≠ "")).toFinset

/-- The requested names that have a `Permission` row
(`permission_by_name.keys` in the handler; the complement within the
request is `missing`). -/
def known_requested (s : Store) (payload : List String) : Finset String :=
  (requested_permissions payload).filter
    (fun n => (s.permissions.find? (fun p => p.name == n)).isSome)

/-- `main.set_user_permissions_for_project`, lines 671–703: the
AssignmentGuard core of the handler (the preceding `user:manage` gate and
project/user existence checks belong to the calling route layer).  Checks,
in source order: if the actor lacks `admin:all` for the project, any
requested permission the actor does not hold fails with `PermissionDenied`
naming the unauthorized permissions; then any requested name with no
`Permission` row fails with `ValidationError` naming the unknown
permissions; otherwise every direct grant row of `(user_id, project_id)` is
deleted and one row per requested permission row is inserted (the dict
`permission_by_name` keyed by the unique permission names is modelled by
the filtered row list itself).  Returns the updated store and the
inserted-row count. -/
def set_user_permissions_for_project (s : Store) (current_user_id : Nat)
    (project_id : Nat) (user_id : Nat) (payload : List String) :
    Except RbacError (Store × Nat) :=
  let requested := requested_permissions payload
  let current_perms := get_user_permissions s current_user_id (some project_id)
  let unauthorized := requested \ current_perms
  if Permissions.ADMIN_ALL ∉ current_perms ∧ unauthorized ≠ ∅ then
    .error (.permissionDenied "Cannot grant permissions" unauthorized)
  else
    let known := known_requested s payload
    let missing := requested \ known
    if missing ≠ ∅ then
      .error (.validationError "Unknown permissions" missing)
    else
      let kept := s.userPermissions.filter
        (fun up => !(up.user_id == user_id && up.project_id == project_id))
      let permRows := s.permissions.filter
        (fun p => decide (p.name ∈ requested))
      let base := next_user_permission_id s
      let newRows := permRows.enum.map
        (fun ip => UserPermission.mk (base + ip.1) user_id ip.2.id project_id)
      .ok ({ s with userPermissions := kept ++ newRows }, permRows.length)

/-- `rbac.DEFAULT_ROLES`: name, description and permission bundle of each
default role. -/
def DEFAULT_ROLES : List (String × String × List String) :=
  [("admin", "Full system administrator with all permissions",
    [Permissions.DOCUMENT_UPLOAD, Permissions.DOCUMENT_READ,
     Permissions.DOCUMENT_UPDATE, Permissions.DOCUMENT_DELETE,
     Permissions.DOCUMENT_DOWNLOAD, Permissions.PROJECT_CREATE,
     Permissions.PROJECT_READ, Permissions.PROJECT_UPDATE,
     Permissions.PROJECT_DELETE, Permissions.PROJECT_MANAGE,
     Permissions.USER_CREATE, Permissions.USER_READ,
     Permissions.USER_UPDATE, Permissions.USER_DELETE,
     Permissions.USER_INVITE, Permissions.USER_MANAGE,
     Permissions.ROLE_CREATE, Permissions.ROLE_READ,
     Permissions.ROLE_UPDATE, Permissions.ROLE_DELETE,
     Permissions.ROLE_MANAGE, Permissions.ROLE_ASSIGN,
     Permissions.COMPANY_CREATE, Permissions.COMPANY_READ,
     Permissions.COMPANY_UPDATE, Permissions.COMPANY_DELETE,
     Permissions.COMPANY_MANAGE, Permissions.ADMIN_ALL,
     Permissions.SYSTEM_SETTINGS]),
   ("manager",
    "Project manager - can manage projects, invite users, and manage documents",
    [Permissions.DOCUMENT_UPLOAD, Permissions.DOCUMENT_READ,
     Permissions.DOCUMENT_UPDATE, Permissions.DOCUMENT_DOWNLOAD,
     Permissions.PROJECT_CREATE, Permissions.PROJECT_READ,
     Permissions.PROJECT_UPDATE, Permissions.PROJECT_MANAGE,
     Permissions.USER_READ, Permissions.USER_INVITE,
     Permissions.ROLE_READ, Permissions.ROLE_ASSIGN,
     Permissions.COMPANY_CREATE, Permissions.COMPANY_READ]),
   ("uploader", "Document uploader - can upload and view documents",
    [Permissions.DOCUMENT_UPLOAD, Permissions.DOCUMENT_READ,
     Permissions.DOCUMENT_DOWNLOAD, Permissions.PROJECT_READ,
     Permissions.USER_READ]),
   ("viewer", "Read-only user - can view and download documents",
    [Permissions.DOCUMENT_READ, Permissions.DOCUMENT_DOWNLOAD,
     Permissions.PROJECT_READ, Permissions.USER_READ])]

/-- `perm_name.split(":")` on the character level (`String.splitOn` is not
kernel-reducible): the segments between colons. -/
def split_on_colon (cs : List Char) : List (List Char) :=
  match cs with
  | [] => [[]]
  | c :: rest =>
      let r := split_on_colon rest
      if c = ':' then [] :: r
      else
        match r with
        | [] => [[c]]
        | h :: t => (c :: h) :: t

/-- Resource and action parts of a permission name (`parts[0]` and
`parts[1]`, with the source's `"unknown"` fallback when a part is
missing). -/
def split_perm_name (perm_name : String) : String × String :=
  let parts := (split_on_colon perm_name.data).map (fun l => (⟨l⟩ : String))
  (parts.headD "unknown", (parts.drop 1).headD "unknown")

/-- Database-assigned primary key for a fresh `roles` row. -/
def next_role_id (s : Store) : Nat :=
  ((s.roles.map (fun r => r.id)).foldl max 0) + 1

/-- Database-assigned primary key for a fresh `permissions` row. -/
def next_permission_id (s : Store) : Nat :=
  ((s.permissions.map (fun p => p.id)).foldl max 0) + 1

/-- Last step of the seeding inner loop: add the `RolePermission` edge for
`(role, p)` unless it already exists. -/
def add_link_if_absent (role : Role) (p : Permission) (s : Store) : Store :=
  if (s.rolePermissions.find? (fun rp =>
      rp.role_id == role.id && rp.permission_id == p.id)).isSome then s
  else { s with rolePermissions := s.rolePermissions ++ [⟨role.id, p.id⟩] }

/-- Inner loop body of `rbac.seed_rbac_data` for one permission name:
find-or-create the `Permission` row (splitting the name into resource and
action on creation), then link it to the role if not yet linked. -/
def seed_permission (role : Role) (s : Store) (perm_name : String) : Store :=
  match s.permissions.find? (fun p => p.name == perm_name) with
  | some p => add_link_if_absent role p s
  | none =>
      let p : Permission :=
        ⟨next_permission_id s, perm_name, (split_perm_name perm_name).1,
          (split_perm_name perm_name).2⟩
      add_link_if_absent role p { s with permissions := s.permissions ++ [p] }

/-- Outer loop body of `rbac.seed_rbac_data` for one `DEFAULT_ROLES`
entry: find the role by name and refresh its description, or create it;
then seed each of its permission names. -/
def seed_role (s : Store) (entry : String × String × List String) : Store :=
  match s.roles.find? (fun r => r.name == entry.1) with
  | some r =>
      (entry.2.2).foldl (seed_permission { r with description := entry.2.1 })
        { s with roles := s.roles.map (fun r' =>
            if r'.id == r.id then { r' with description := entry.2.1 } else r') }
  | none =>
      let r : Role := ⟨next_role_id s, entry.1, entry.2.1⟩
      (entry.2.2).foldl (seed_permission r) { s with roles := s.roles ++ [r] }

/-- `rbac.seed_rbac_data`: seed every default role with its permission
bundle. -/
def seed_rbac_data (s : Store) : Store :=
  DEFAULT_ROLES.foldl seed_role s

/-- Primary-key uniqueness of the `roles` and `permissions` tables (enforced
by the database; the seeding analysis assumes it). -/
def Store.wf (s : Store) : Prop :=
  (s.roles.map (fun r => r.id)).Nodup ∧
  (s.permissions.map (fun p => p.id)).Nodup

/-- One permission name fully seeded for a role id: the permission row
exists and the edge is present. -/
def perm_seeded (t : Store) (rid : Nat) (pn : String) : Prop :=
  ∃ p, t.permissions.find? (fun x => x.name == pn) = some p ∧
    (t.rolePermissions.find? (fun rp =>
      rp.role_id == rid && rp.permission_id == p.id)).isSome = true

/-- One `DEFAULT_ROLES` entry fully seeded: the role row is found by name,
every row sharing its id carries the seeded description, and every
permission of the bundle is seeded for it. -/
def role_seeded (t : Store) (e : String × String × List String) : Prop :=
  ∃ r, t.roles.find? (fun x => x.name == e.1) = some r ∧
    (∀ r' ∈ t.roles, r'.id = r.id → r'.description = e.2.1) ∧
    ∀ pn ∈ e.2.2, perm_seeded t r.id pn

/-!
## Concrete stores used as evaluation points

`bootStore` mirrors the state produced by `create_initial_user.py`: the
seeded `admin` role (holding `admin:all`) is assigned to user 1 with
`project_id = None`, the global scope marker.

`customStore` holds one role outside the fixed hierarchy (`auditor`),
assigned to user 1 for project 1.
-/

def adminAllPerm : Permission := ⟨1, "admin:all", "admin", "all"⟩

def adminRole : Role := ⟨1, "admin", "Full system administrator with all permissions"⟩

def bootStore : Store where
  projects := []
  users := [1]
  roles := [adminRole]
  permissions := [adminAllPerm]
  rolePermissions := [⟨1, 1⟩]
  userRoles := [⟨1, 1, 1, none⟩]
  userPermissions := []

def auditorRole : Role := ⟨7, "auditor", "a role outside the fixed hierarchy"⟩

def customStore : Store where
  projects := [1]
  users := [1]
  roles := [auditorRole]
  permissions := []
  rolePermissions := []
  userRoles := [⟨1, 1, 7, some 1⟩]
  userPermissions := []

def managerRole : Role :=
  ⟨2, "manager", "Project manager - can manage projects, invite users, and manage documents"⟩

/-- The spec's escalation example: user 1 is a `manager` for project 9 and
holds no `admin:all` there; user 2 holds nothing. -/
def escalationStore : Store where
  projects := [9]
  users := [1, 2]
  roles := [adminRole, managerRole]
  permissions := [adminAllPerm]
  rolePermissions := []
  userRoles := [⟨1, 1, 2, some 9⟩]
  userPermissions := []

/-- `escalationStore` with, in addition, a direct `admin:all` grant for
user 1 on project 9. -/
def escalationAdminStore : Store where
  projects := [9]
  users := [1, 2]
  roles := [adminRole, managerRole]
  permissions := [adminAllPerm]
  rolePermissions := []
  userRoles := [⟨1, 1, 2, some 9⟩]
  userPermissions := [⟨1, 1, 1, 9⟩]

def docReadPerm : Permission := ⟨2, "document:read", "document", "read"⟩

def docUploadPerm : Permission := ⟨3, "document:upload", "document", "upload"⟩

/-- The spec's grant-of-grants example: actor 1 holds exactly
`{document:read}` for project 3 (as a direct grant) and no `admin:all`;
user 2 is the target. -/
def grantStore : Store where
  projects := [3]
  users := [1, 2]
  roles := []
  permissions := [docReadPerm, docUploadPerm]
  rolePermissions := []
  userRoles := []
  userPermissions := [⟨1, 1, 2, 3⟩]

/-!
## Theorems
-/

/-- **C3.** For every user, permission and scope, `has_permission` returns
true exactly when `admin:all` is in the effective permission set or the
permission itself is; being a total function into `Bool`, it never raises
an error — unknown users or scopes merely yield an empty permission set and
hence `false`. -/
theorem has_permission_spec (s : Store) (user_id : Nat) (permission : String)
    (project_id : Option Nat) :
    has_permission s user_id permission project_id = true ↔
      Permissions.ADMIN_ALL ∈ get_user_permissions s user_id project_id ∨
        permission ∈ get_user_permissions s user_id project_id := by
  unfold has_permission
  by_cases h : Permissions.ADMIN_ALL ∈ get_user_permissions s user_id project_id <;>
    simp [h]

/-- Evaluation point for `has_permission_spec`. -/
theorem has_permission_spec_witness :
    has_permission customStore 1 "document:read" (some 1) = true ↔
      Permissions.ADMIN_ALL ∈ get_user_permissions customStore 1 (some 1) ∨
        "document:read" ∈ get_user_permissions customStore 1 (some 1) :=
  has_permission_spec customStore 1 "document:read" (some 1)

/-- **C10.** `assign_role_to_user` receives the acting principal
(`admin_user_id`) but never reads it: two runs that differ only in that
argument are definitionally identical, returning the same result and the
same store, so any escalation guard lives only in the calling route
handlers. -/
theorem assign_role_ignores_admin_user (s : Store) (user_id : Nat)
    (role_name : String) (project_id : Option Nat) (a b : Option Nat) :
    assign_role_to_user s user_id role_name project_id a =
      assign_role_to_user s user_id role_name project_id b := rfl

/-- **C4.** Contrary to the specification, resolving roles with the global
scope (`project_id = None`) never returns the user's globally scoped role
assignments: `get_user_roles` short-circuits to the empty list, so the
bootstrap administrator's global `admin` assignment (present in the store)
is invisible, and the global effective permission set is empty. -/
theorem global_scope_roles_empty :
    (∃ ur ∈ bootStore.userRoles,
      ur.user_id = 1 ∧ ur.project_id = none ∧ ur.role_id = adminRole.id) ∧
    get_user_roles bootStore 1 none = [] ∧
    get_user_permissions bootStore 1 none = ∅ ∧
    has_permission bootStore 1 Permissions.ADMIN_ALL none = false := by
  refine ⟨⟨⟨1, 1, 1, none⟩, by decide, by decide⟩, by decide, by decide, by decide⟩

/-- **C5, counterexample.** A user whose only role for a scope lies outside
the fixed hierarchy (sentinel rank): `rolesOf` is non-empty, yet
`get_user_highest_role` returns `none`, falsifying "returns `none` iff
`rolesOf(user, scope)` is empty" (and failing to return the minimal-rank
role, which exists). -/
theorem highest_role_none_on_nonempty :
    get_user_roles customStore 1 (some 1) = [auditorRole] ∧
    get_user_highest_role customStore 1 (some 1) = none := by
  exact ⟨by decide, by decide⟩

/-- Every rank is at most the sentinel `ROLE_HIERARCHY.length`. -/
lemma get_role_rank_le (x : Option String) :
    get_role_rank x ≤ ROLE_HIERARCHY.length := by
  unfold get_role_rank
  match x with
  | none => exact le_refl _
  | some name =>
      by_cases h : name = ""
      · simp [h]
      · simp only [h, if_false]
        exact List.indexOf_le_length

/-- Case analysis of the best-role scan: either no candidate beat the
accumulator (which is then returned unchanged and every scanned rank is at
least the accumulator rank), or the result is some scanned role of strictly
smaller rank that is minimal over the whole list. -/
lemma highest_role_foldl_cases (l : List Role) (b : Option String) (k : Nat) :
    (l.foldl highest_role_step (b, k) = (b, k) ∧
        ∀ r ∈ l, k ≤ get_role_rank (some r.name)) ∨
    (∃ r ∈ l,
        l.foldl highest_role_step (b, k) =
          (some r.name, get_role_rank (some r.name)) ∧
        get_role_rank (some r.name) < k ∧
        ∀ r' ∈ l, get_role_rank (some r.name) ≤ get_role_rank (some r'.name)) := by
  induction l generalizing b k with
  | nil => left; simp
  | cons r t ih =>
      simp only [List.foldl_cons]
      by_cases h : get_role_rank (some r.name) < k
      · have hstep : highest_role_step (b, k) r =
            (some r.name, get_role_rank (some r.name)) := by
          unfold highest_role_step; simp [h]
        rw [hstep]
        rcases ih (some r.name) (get_role_rank (some r.name)) with
          ⟨heq, hall⟩ | ⟨r'', hmem, heq, hlt, hall⟩
        · right
          refine ⟨r, List.mem_cons_self r t, heq, h, ?_⟩
          intro r' hr'
          rcases List.mem_cons.mp hr' with hr' | hr'
          · rw [hr']
          · exact hall r' hr'
        · right
          refine ⟨r'', List.mem_cons_of_mem r hmem, heq, lt_trans hlt h, ?_⟩
          intro r' hr'
          rcases List.mem_cons.mp hr' with hr' | hr'
          · rw [hr']; exact le_of_lt hlt
          · exact hall r' hr'
      · have hstep : highest_role_step (b, k) r = (b, k) := by
          unfold highest_role_step; simp [h]
        rw [hstep]
        rcases ih b k with ⟨heq, hall⟩ | ⟨r'', hmem, heq, hlt, hall⟩
        · left
          refine ⟨heq, ?_⟩
          intro r' hr'
          rcases List.mem_cons.mp hr' with hr' | hr'
          · rw [hr']; exact le_of_not_lt h
          · exact hall r' hr'
        · right
          refine ⟨r'', List.mem_cons_of_mem r hmem, heq, hlt, ?_⟩
          intro r' hr'
          rcases List.mem_cons.mp hr' with hr' | hr'
          · rw [hr']; exact le_trans (le_of_lt hlt) (le_of_not_lt h)
          · exact hall r' hr'

/-- **C5, amended.** `get_user_highest_role` returns `none` iff every role
in `rolesOf(user, scope)` has the sentinel rank — so in particular when the
set is empty, but also when the user holds only roles outside the hierarchy
(where the claim's "none iff empty" fails); when it returns a role name,
that name belongs to a role of the set whose rank is minimal over the whole
set. -/
theorem highest_role_minimal (s : Store) (user_id : Nat)
    (project_id : Option Nat) :
    (get_user_highest_role s user_id project_id = none ↔
      ∀ r ∈ get_user_roles s user_id project_id,
        get_role_rank (some r.name) = ROLE_HIERARCHY.length) ∧
    (∀ name, get_user_highest_role s user_id project_id = some name →
      (∃ r ∈ get_user_roles s user_id project_id, r.name = name) ∧
      ∀ r ∈ get_user_roles s user_id project_id,
        get_role_rank (some name) ≤ get_role_rank (some r.name)) := by
  unfold get_user_highest_role
  by_cases hl : get_user_roles s user_id project_id = []
  · rw [hl]
    constructor
    · simp
    · intro name hname; simp at hname
  · simp only [hl, if_false]
    rcases highest_role_foldl_cases (get_user_roles s user_id project_id) none
        ROLE_HIERARCHY.length with
      ⟨heq, hall⟩ | ⟨r'', hmem, heq, hlt, hall⟩
    · rw [heq]
      constructor
      · simp only [true_iff]
        intro r' hr'
        exact le_antisymm (get_role_rank_le _) (hall r' hr')
      · intro name hname
        cases hname
    · rw [heq]
      constructor
      · simp only [iff_def]
        constructor
        · intro habs; cases habs
        · intro hall'
          exact absurd (hall' r'' hmem) (by omega)
      · intro name hname
        cases hname
        exact ⟨⟨r'', hmem, rfl⟩, hall⟩

/-- Evaluation point for `highest_role_minimal`: on `customStore` (sole
role `auditor`, sentinel rank) the none-case biconditional holds
concretely. -/
theorem highest_role_minimal_witness :
    get_user_highest_role customStore 1 (some 1) = none ↔
      ∀ r ∈ get_user_roles customStore 1 (some 1),
        get_role_rank (some r.name) = ROLE_HIERARCHY.length :=
  (highest_role_minimal customStore 1 (some 1)).1

/-- The one-role-per-scope invariant: for every user and scope at most one
`user_roles` row exists. -/
def one_role_per_scope (s : Store) : Prop :=
  ∀ u (p : Option Nat),
    (s.userRoles.filter (fun ur => ur.user_id == u && ur.project_id == p)).length ≤ 1

def viewerRole : Role := ⟨4, "viewer", "Read-only user - can view and download documents"⟩

/-- User 2 already holds `viewer` for project 1. -/
def conflictStore : Store where
  projects := [1]
  users := [1, 2]
  roles := [viewerRole]
  permissions := []
  rolePermissions := []
  userRoles := [⟨1, 2, 4, some 1⟩]
  userPermissions := []

/-- **C6, counterexample.** The target already holds a role for the scope,
yet a further `assign_role_to_user` call with a role name that has no row
fails with `NotFound` (the role lookup precedes the duplicate check), not
with `Conflict` — falsifying "any further assignRole call for the same
(user, scope) with **any** role name fails with Conflict". -/
theorem second_assignment_unknown_role_not_conflict :
    (∃ ur ∈ conflictStore.userRoles, ur.user_id = 2 ∧ ur.project_id = some 1) ∧
    assign_role_to_user conflictStore 2 "ghost" (some 1) (some 1) =
      .error (.notFound "Role 'ghost' not found") := by
  refine ⟨⟨⟨1, 2, 4, some 1⟩, by decide, by decide, by decide⟩, by rfl⟩

/-- **C6, amended.** Once a role assignment exists for `(user, scope)`, any
further `assign_role_to_user` call for the same pair with any role name
**that exists in storage** fails with `Conflict` and creates nothing (an
unknown role name instead fails with `NotFound`); and every successful call
preserves the invariant that a user holds at most one role per scope. -/
theorem assign_role_conflict_on_existing (s : Store) (user_id pid : Nat)
    (role_name : String) (admin : Option Nat) :
    ((∃ role ∈ s.roles, role.name = role_name) →
      (∃ ur ∈ s.userRoles, ur.user_id = user_id ∧ ur.project_id = some pid) →
      assign_role_to_user s user_id role_name (some pid) admin =
        .error (.conflict "User already has a role for this project")) ∧
    (∀ row s',
      assign_role_to_user s user_id role_name (some pid) admin = .ok (row, s') →
      one_role_per_scope s → one_role_per_scope s') := by
  constructor
  · intro hrole hex
    obtain ⟨role0, hmem0, hname0⟩ := hrole
    have hfind : (s.roles.find? (fun r => r.name == role_name)).isSome := by
      rw [List.find?_isSome]
      exact ⟨role0, hmem0, by simp [hname0]⟩
    rw [Option.isSome_iff_exists] at hfind
    obtain ⟨role, hfind⟩ := hfind
    have hsome :
        (s.userRoles.find? (fun ur =>
          ur.user_id == user_id && ur.project_id == some pid)).isSome = true := by
      rw [List.find?_isSome]
      obtain ⟨ur, hmem, hu, hp⟩ := hex
      exact ⟨ur, hmem, by simp [hu, hp]⟩
    unfold assign_role_to_user
    simp only []
    rw [hfind]
    simp [hsome]
  · intro row s' h hinv
    unfold assign_role_to_user at h
    simp only [] at h
    rcases hfind : s.roles.find? (fun r => r.name == role_name) with _ | role
    · rw [hfind] at h; cases h
    · rw [hfind] at h
      simp only [] at h
      rcases h1 : (s.userRoles.find? (fun ur =>
          ur.user_id == user_id && ur.project_id == some pid)).isSome with _ | _
      · rcases h2 : (s.userRoles.find? (fun ur =>
            ur.user_id == user_id && ur.role_id == role.id &&
            ur.project_id == some pid)).isSome with _ | _
        · rw [h1, h2] at h
          simp only [Bool.false_eq_true, if_false] at h
          injection h with h
          injection h with hrow hs'
          have hnone : s.userRoles.find? (fun ur =>
              ur.user_id == user_id && ur.project_id == some pid) = none := by
            rcases hf : s.userRoles.find? (fun ur =>
                ur.user_id == user_id && ur.project_id == some pid) with _ | x
            · exact hf
            · rw [hf] at h1; cases h1
          rw [List.find?_eq_none] at hnone
          subst hrow
          subst hs'
          intro u p
          simp only [List.filter_append, List.length_append]
          by_cases hc : u = user_id ∧ p = some pid
          · have hempty :
                s.userRoles.filter (fun ur => ur.user_id == u && ur.project_id == p) = [] := by
              rw [List.filter_eq_nil_iff]
              intro x hx
              have := hnone x hx
              rw [hc.1, hc.2]
              simpa using this
            rw [hempty]
            have hle := List.length_filter_le
              (fun ur => ur.user_id == u && ur.project_id == p)
              [(⟨next_user_role_id s, user_id, role.id, some pid⟩ : UserRole)]
            simpa using hle
          · have hrow' :
                List.filter (fun ur => ur.user_id == u && ur.project_id == p)
                  [(⟨next_user_role_id s, user_id, role.id, some pid⟩ : UserRole)] = [] := by
              rw [List.filter_eq_nil_iff]
              intro x hx
              simp only [List.mem_singleton] at hx
              rw [hx]
              simp only [Bool.and_eq_true, beq_iff_eq]
              intro ⟨hxu, hxp⟩
              exact hc ⟨hxu.symm, hxp.symm⟩
            rw [hrow']
            simpa using hinv u p
        · rw [h1, h2] at h
          simp at h
      · rw [h1] at h
        simp at h

/-- Evaluation point for `assign_role_conflict_on_existing`: the conflict
branch at `conflictStore` with the existing role name. -/
theorem assign_role_conflict_on_existing_witness :
    assign_role_to_user conflictStore 2 "viewer" (some 1) (some 1) =
      .error (.conflict "User already has a role for this project") :=
  (assign_role_conflict_on_existing conflictStore 2 1 "viewer" (some 1)).1
    ⟨viewerRole, by decide, by decide⟩
    ⟨⟨1, 2, 4, some 1⟩, by decide, by decide, by decide⟩

/-- Membership in the left fold of unions used by `get_user_permissions`. -/
lemma mem_foldl_union (l : List Role) (init : Finset String)
    (f : Role → Finset String) (x : String) :
    x ∈ l.foldl (fun acc r => acc ∪ f r) init ↔
      x ∈ init ∨ ∃ r ∈ l, x ∈ f r := by
  induction l generalizing init with
  | nil => simp
  | cons r t ih =>
      simp only [List.foldl_cons]
      rw [ih]
      constructor
      · rintro (hx | ⟨r', hr', hx⟩)
        · rcases Finset.mem_union.mp hx with h | h
          · exact Or.inl h
          · exact Or.inr ⟨r, List.mem_cons_self r t, h⟩
        · exact Or.inr ⟨r', List.mem_cons_of_mem r hr', hx⟩
      · rintro (hx | ⟨r', hr', hx⟩)
        · exact Or.inl (Finset.mem_union_left _ hx)
        · rcases List.mem_cons.mp hr' with rfl | hmem
          · exact Or.inl (Finset.mem_union_right _ hx)
          · exact Or.inr ⟨r', hmem, hx⟩

/-- Every name reachable from a role's permission edges is the name of a
`Permission` row of the store. -/
lemma mem_role_permission_names (s : Store) (r : Role) (x : String) :
    x ∈ role_permission_names s r → ∃ p ∈ s.permissions, p.name = x := by
  unfold role_permission_names
  rw [List.mem_toFinset, List.mem_filterMap]
  rintro ⟨rp, _, hmap⟩
  rcases hq : s.permissions.find? (fun p => p.id == rp.permission_id) with _ | q
  · rw [hq] at hmap; cases hmap
  · rw [hq] at hmap
    injection hmap with hname
    exact ⟨q, List.mem_of_find?_eq_some hq, hname⟩

/-- Every direct-grant name is the name of a `Permission` row of the
store. -/
lemma mem_direct_permission_names (s : Store) (uid pid : Nat) (x : String) :
    x ∈ direct_permission_names s uid pid → ∃ p ∈ s.permissions, p.name = x := by
  unfold direct_permission_names
  rw [List.mem_toFinset, List.mem_filterMap]
  rintro ⟨up, _, hmap⟩
  rcases hq : s.permissions.find? (fun p => p.id == up.permission_id) with _ | q
  · rw [hq] at hmap; cases hmap
  · rw [hq] at hmap
    injection hmap with hname
    exact ⟨q, List.mem_of_find?_eq_some hq, hname⟩

/-- Every effective permission is the name of a `Permission` row: an
identifier with no row can never appear in any user's effective set. -/
lemma mem_get_user_permissions_exists_row (s : Store) (uid : Nat)
    (pid? : Option Nat) (x : String) :
    x ∈ get_user_permissions s uid pid? → ∃ p ∈ s.permissions, p.name = x := by
  unfold get_user_permissions
  match pid? with
  | none =>
      intro hx
      rw [mem_foldl_union] at hx
      rcases hx with hx | ⟨r, _, hx⟩
      · cases hx
      · exact mem_role_permission_names s r x hx
  | some pid =>
      intro hx
      rw [Finset.mem_union, mem_foldl_union] at hx
      rcases hx with (hx | ⟨r, _, hx⟩) | hx
      · cases hx
      · exact mem_role_permission_names s r x hx
      · exact mem_direct_permission_names s uid pid x hx

/-- **C2.** The effective permission set is exactly the union of the
permissions reachable from the user's roles for the scope and — when the
scope is a concrete project — the direct grants for that project; no other
element occurs.  Consequently a direct grant alone makes
`has_permission` answer true for that project, regardless of the user's
roles. -/
theorem effective_permissions_union (s : Store) (user_id : Nat)
    (project_id : Option Nat) :
    (get_user_permissions s user_id project_id =
      (get_user_roles s user_id project_id).toFinset.biUnion
          (role_permission_names s) ∪
        (match project_id with
          | some pid => direct_permission_names s user_id pid
          | none => (∅ : Finset String))) ∧
    (∀ pid p, p ∈ direct_permission_names s user_id pid →
      has_permission s user_id p (some pid) = true) := by
  have hmain : ∀ pid? : Option Nat,
      get_user_permissions s user_id pid? =
        (get_user_roles s user_id pid?).toFinset.biUnion
            (role_permission_names s) ∪
          (match pid? with
            | some pid => direct_permission_names s user_id pid
            | none => (∅ : Finset String)) := by
    intro pid?
    match pid? with
    | none =>
        unfold get_user_permissions
        ext x
        rw [mem_foldl_union]
        simp [Finset.mem_biUnion, List.mem_toFinset]
    | some pid =>
        unfold get_user_permissions
        ext x
        rw [Finset.mem_union, mem_foldl_union]
        simp [Finset.mem_biUnion, List.mem_toFinset, or_assoc]
  refine ⟨hmain project_id, ?_⟩
  intro pid p hp
  have hmem : p ∈ get_user_permissions s user_id (some pid) := by
    rw [hmain (some pid)]
    exact Finset.mem_union_right _ hp
  unfold has_permission
  by_cases h : Permissions.ADMIN_ALL ∈ get_user_permissions s user_id (some pid) <;>
    simp [h, hmem]

/-- Evaluation point for `effective_permissions_union`: on `bootStore`
with project scope 1 the direct-grant conjunct is applied at the (empty)
grant set, and the union equation is applied at the global scope. -/
theorem effective_permissions_union_witness :
    get_user_permissions bootStore 1 none =
      (get_user_roles bootStore 1 none).toFinset.biUnion
          (role_permission_names bootStore) ∪ (∅ : Finset String) :=
  (effective_permissions_union bootStore 1 none).1

/-- **C1.** For the role-assignment endpoint (project and target user
existing): the call fails with `PermissionDenied` when the actor holds no
role for the scope; it fails with `PermissionDenied` when the requested
role outranks the actor's highest role (strictly smaller rank) and the
actor does not hold `admin:all` for the scope; and the same call succeeds —
persisting exactly one new assignment row — when the actor (holding some
role) additionally holds `admin:all` for the scope, the role name exists in
storage, and the target holds no role for the scope yet. -/
theorem assign_role_escalation_guard (s : Store) (actor pid uid : Nat)
    (role_name : String) (hp : pid ∈ s.projects) (hu : uid ∈ s.users) :
    (get_user_highest_role s actor (some pid) = none →
      assign_user_role_to_project s actor pid uid role_name =
        .error (.permissionDenied "Cannot assign role without a project role" ∅)) ∧
    (∀ cr, get_user_highest_role s actor (some pid) = some cr →
      get_role_rank (some role_name) < get_role_rank (some cr) →
      Permissions.ADMIN_ALL ∉ get_user_permissions s actor (some pid) →
      assign_user_role_to_project s actor pid uid role_name =
        .error (.permissionDenied "Cannot assign a higher role" ∅)) ∧
    (∀ cr role, get_user_highest_role s actor (some pid) = some cr →
      Permissions.ADMIN_ALL ∈ get_user_permissions s actor (some pid) →
      s.roles.find? (fun r => r.name == role_name) = some role →
      s.userRoles.find? (fun ur =>
        ur.user_id == uid && ur.project_id == some pid) = none →
      ∃ row s',
        assign_user_role_to_project s actor pid uid role_name = .ok (row, s') ∧
        s'.userRoles = s.userRoles ++ [row] ∧
        row.user_id = uid ∧ row.role_id = role.id ∧ row.project_id = some pid) := by
  refine ⟨?_, ?_, ?_⟩
  · intro hnone
    unfold assign_user_role_to_project
    rw [if_neg (not_not_intro hp), if_neg (not_not_intro hu), hnone]
  · intro cr hcr hrank hnadmin
    unfold assign_user_role_to_project
    rw [if_neg (not_not_intro hp), if_neg (not_not_intro hu), hcr]
    simp only []
    rw [if_pos ⟨hrank, hnadmin⟩]
  · intro cr role hcr hadmin hfind hnorow
    unfold assign_user_role_to_project
    rw [if_neg (not_not_intro hp), if_neg (not_not_intro hu), hcr]
    simp only []
    rw [if_neg (by intro ⟨_, hna⟩; exact hna hadmin)]
    unfold assign_role_to_user
    simp only []
    rw [hfind]
    simp only []
    have hnorow2 : s.userRoles.find? (fun ur =>
        ur.user_id == uid && ur.role_id == role.id &&
        ur.project_id == some pid) = none := by
      rw [List.find?_eq_none] at hnorow ⊢
      intro x hx hpred
      apply hnorow x hx
      simp only [Bool.and_eq_true] at hpred ⊢
      exact ⟨hpred.1.1, hpred.2⟩
    rw [hnorow, hnorow2]
    simp only [Option.isSome_none, Bool.false_eq_true, if_false]
    exact ⟨⟨next_user_role_id s, uid, role.id, some pid⟩,
      { s with userRoles :=
          s.userRoles ++ [⟨next_user_role_id s, uid, role.id, some pid⟩] },
      rfl, rfl, rfl, rfl, rfl⟩

/-- Evaluation point for `assign_role_escalation_guard`: the spec's own
escalation example.  In `escalationStore`, user 1 is a `manager` (rank 1)
for project 9; assigning `admin` (rank 0) to user 2 hits the denied branch;
in `escalationAdminStore` the same actor additionally holds a direct
`admin:all` grant for project 9 and the same call succeeds. -/
theorem assign_role_escalation_guard_witness :
    assign_user_role_to_project escalationStore 1 9 2 "admin" =
      .error (.permissionDenied "Cannot assign a higher role" ∅) ∧
    (∃ row s',
      assign_user_role_to_project escalationAdminStore 1 9 2 "admin" =
        .ok (row, s') ∧
      s'.userRoles = escalationAdminStore.userRoles ++ [row] ∧
      row.user_id = 2 ∧ row.role_id = adminRole.id ∧
      row.project_id = some 9) := by
  constructor
  · exact (assign_role_escalation_guard escalationStore 1 9 2 "admin"
      (by decide) (by decide)).2.1 "manager" (by decide) (by decide) (by decide)
  · exact (assign_role_escalation_guard escalationAdminStore 1 9 2 "admin"
      (by decide) (by decide)).2.2 "manager" adminRole (by decide) (by decide)
      (by decide) (by decide)

/-- **C7, counterexample.** An unknown requested identifier does **not**
always yield `ValidationError`: in `grantStore` the actor holds no
`admin:all`, so the actor-permission check (which precedes the
unknown-permission check in the source) rejects the unknown name
`bogus:perm` with `PermissionDenied` instead. -/
theorem unknown_permission_not_validation_error :
    grantStore.permissions.find? (fun p => p.name == "bogus:perm") = none ∧
    set_user_permissions_for_project grantStore 1 3 2 ["bogus:perm"] =
      .error (.permissionDenied "Cannot grant permissions" {"bogus:perm"}) :=
  ⟨rfl, by decide⟩

/-- **C7, amended.** `set_user_permissions_for_project` fails with
`ValidationError` naming the unknown identifiers whenever some requested
identifier has no `Permission` row **and the actor holds `admin:all` for
the scope**; an actor without `admin:all` instead fails with
`PermissionDenied`, because the actor-permission check runs first and an
unknown identifier can never be among the actor's effective permissions. -/
theorem unknown_permission_validation (s : Store) (actor pid uid : Nat)
    (payload : List String) :
    (Permissions.ADMIN_ALL ∈ get_user_permissions s actor (some pid) →
      requested_permissions payload \ known_requested s payload ≠ ∅ →
      set_user_permissions_for_project s actor pid uid payload =
        .error (.validationError "Unknown permissions"
          (requested_permissions payload \ known_requested s payload))) ∧
    (Permissions.ADMIN_ALL ∉ get_user_permissions s actor (some pid) →
      requested_permissions payload \ known_requested s payload ≠ ∅ →
      ∃ names, set_user_permissions_for_project s actor pid uid payload =
        .error (.permissionDenied "Cannot grant permissions" names)) := by
  constructor
  · intro hadmin hmissing
    unfold set_user_permissions_for_project
    simp only []
    rw [if_neg (by intro h; exact h.1 hadmin)]
    rw [if_pos hmissing]
  · intro hnadmin hmissing
    have hunauth : requested_permissions payload \
        get_user_permissions s actor (some pid) ≠ ∅ := by
      rw [← Finset.nonempty_iff_ne_empty] at hmissing ⊢
      obtain ⟨n, hn⟩ := hmissing
      rw [Finset.mem_sdiff] at hn
      obtain ⟨hreq, hnk⟩ := hn
      refine ⟨n, Finset.mem_sdiff.mpr ⟨hreq, ?_⟩⟩
      intro hcur
      apply hnk
      unfold known_requested
      rw [Finset.mem_filter]
      refine ⟨hreq, ?_⟩
      obtain ⟨p, hp, hname⟩ :=
        mem_get_user_permissions_exists_row s actor (some pid) n hcur
      rw [List.find?_isSome]
      exact ⟨p, hp, by simp [hname]⟩
    unfold set_user_permissions_for_project
    simp only []
    rw [if_pos ⟨hnadmin, hunauth⟩]
    exact ⟨_, rfl⟩

/-- Evaluation point for `unknown_permission_validation`: in
`escalationAdminStore` the actor holds `admin:all` for project 9, and an
unknown identifier is rejected with `ValidationError`. -/
theorem unknown_permission_validation_witness :
    set_user_permissions_for_project escalationAdminStore 1 9 2 ["bogus:perm"] =
      .error (.validationError "Unknown permissions"
        (requested_permissions ["bogus:perm"] \
          known_requested escalationAdminStore ["bogus:perm"])) :=
  (unknown_permission_validation escalationAdminStore 1 9 2 ["bogus:perm"]).1
    (by decide) (by decide)

/-- Under unique permission ids (the primary key), looking a row up by its
own id finds exactly that row. -/
lemma find_by_id_eq_self (l : List Permission) (p : Permission)
    (hids : (l.map (fun q => q.id)).Nodup) (hp : p ∈ l) :
    l.find? (fun q => q.id == p.id) = some p := by
  induction l with
  | nil => cases hp
  | cons a t ih =>
      rw [List.map_cons, List.nodup_cons] at hids
      rcases List.mem_cons.mp hp with rfl | hmem
      · exact List.find?_cons_of_pos t (by simp)
      · have hne : ¬(a.id == p.id) = true := by
          simp only [beq_iff_eq]
          intro he
          exact hids.1 (he ▸ List.mem_map.mpr ⟨p, hmem, rfl⟩)
        have hstep : List.find? (fun q => q.id == p.id) (a :: t) =
            List.find? (fun q => q.id == p.id) t :=
          List.find?_cons_of_neg t hne
        rw [hstep]
        exact ih hids.2 hmem

/-- Resolving the names of grant rows whose `permission_id`s mirror a list
of permission rows of the store yields exactly those rows' names. -/
lemma filterMap_by_permission_id (s : Store)
    (hids : (s.permissions.map (fun q => q.id)).Nodup)
    (ups : List UserPermission) :
    ∀ rows : List Permission,
      ups.map (fun up => up.permission_id) = rows.map (fun p => p.id) →
      (∀ p ∈ rows, p ∈ s.permissions) →
      ups.filterMap (fun up =>
        (s.permissions.find? (fun q => q.id == up.permission_id)).map
          Permission.name) = rows.map Permission.name := by
  induction ups with
  | nil =>
      intro rows h _
      cases rows with
      | nil => rfl
      | cons r t => cases h
  | cons u us ih =>
      intro rows h hmem
      cases rows with
      | nil => cases h
      | cons r t =>
          simp only [List.map_cons, List.cons.injEq] at h
          obtain ⟨h1, h2⟩ := h
          simp only [List.filterMap_cons, h1,
            find_by_id_eq_self s.permissions r hids (hmem r (List.mem_cons_self r t)),
            Option.map_some']
          rw [ih t h2 (fun p hp => hmem p (List.mem_cons_of_mem r hp))]
          rfl

/-- **C8.** With every requested identifier known (and unique permission
ids, the table's primary key): an actor without `admin:all` for the scope
fails with `PermissionDenied` naming exactly the requested permissions the
actor does not itself hold there; and when the actor holds every requested
permission — or holds `admin:all` — the call succeeds and the direct grants
of `(target, scope)` become exactly the requested set. -/
theorem set_direct_permissions_guard (s : Store) (actor pid uid : Nat)
    (payload : List String)
    (hknown : ∀ n ∈ requested_permissions payload,
      ∃ p ∈ s.permissions, p.name = n)
    (hids : (s.permissions.map (fun q => q.id)).Nodup) :
    (Permissions.ADMIN_ALL ∉ get_user_permissions s actor (some pid) →
      requested_permissions payload \
          get_user_permissions s actor (some pid) ≠ ∅ →
      set_user_permissions_for_project s actor pid uid payload =
        .error (.permissionDenied "Cannot grant permissions"
          (requested_permissions payload \
            get_user_permissions s actor (some pid)))) ∧
    ((Permissions.ADMIN_ALL ∈ get_user_permissions s actor (some pid) ∨
        requested_permissions payload ⊆
          get_user_permissions s actor (some pid)) →
      ∃ s' cnt,
        set_user_permissions_for_project s actor pid uid payload =
          .ok (s', cnt) ∧
        direct_permission_names s' uid pid = requested_permissions payload) := by
  constructor
  · intro hnadmin hunauth
    unfold set_user_permissions_for_project
    simp only []
    rw [if_pos ⟨hnadmin, hunauth⟩]
  · intro hok
    have hcond : ¬(Permissions.ADMIN_ALL ∉ get_user_permissions s actor (some pid) ∧
        requested_permissions payload \
          get_user_permissions s actor (some pid) ≠ ∅) := by
      rcases hok with hadmin | hsub
      · intro h; exact h.1 hadmin
      · intro h; exact h.2 (Finset.sdiff_eq_empty_iff_subset.mpr hsub)
    have hkr : known_requested s payload = requested_permissions payload := by
      unfold known_requested
      apply Finset.filter_true_of_mem
      intro n hn
      obtain ⟨p, hp, hname⟩ := hknown n hn
      rw [List.find?_isSome]
      exact ⟨p, hp, by simp [hname]⟩
    have hmiss : requested_permissions payload \ known_requested s payload = ∅ := by
      rw [hkr, Finset.sdiff_self]
    unfold set_user_permissions_for_project
    simp only []
    rw [if_neg hcond, if_neg (not_not_intro hmiss)]
    refine ⟨_, _, rfl, ?_⟩
    unfold direct_permission_names
    simp only []
    rw [List.filter_append]
    have hkept : List.filter
        (fun up => up.user_id == uid && up.project_id == pid)
        (s.userPermissions.filter
          (fun up => !(up.user_id == uid && up.project_id == pid))) = [] := by
      rw [List.filter_eq_nil_iff]
      intro x hx
      have := (List.mem_filter.mp hx).2
      simp only [Bool.not_eq_true'] at this
      simp [this]
    rw [hkept, List.nil_append]
    have hnew : List.filter
        (fun up => up.user_id == uid && up.project_id == pid)
        ((s.permissions.filter
            (fun p => decide (p.name ∈ requested_permissions payload))).enum.map
          (fun ip => UserPermission.mk (next_user_permission_id s + ip.1)
            uid ip.2.id pid)) =
        (s.permissions.filter
            (fun p => decide (p.name ∈ requested_permissions payload))).enum.map
          (fun ip => UserPermission.mk (next_user_permission_id s + ip.1)
            uid ip.2.id pid) := by
      rw [List.filter_eq_self]
      intro a ha
      obtain ⟨ip, _, rfl⟩ := List.mem_map.mp ha
      simp
    rw [hnew]
    rw [List.filterMap_map]
    have hres := filterMap_by_permission_id s hids
      ((s.permissions.filter
          (fun p => decide (p.name ∈ requested_permissions payload))).enum.map
        (fun ip => UserPermission.mk (next_user_permission_id s + ip.1)
          uid ip.2.id pid))
      (s.permissions.filter
        (fun p => decide (p.name ∈ requested_permissions payload)))
      (by
        rw [List.map_map]
        have hcomp : ((fun up => up.permission_id) ∘
            fun ip : Nat × Permission =>
              UserPermission.mk (next_user_permission_id s + ip.1)
                uid ip.2.id pid) =
            (fun p : Permission => p.id) ∘ Prod.snd := rfl
        rw [hcomp, ← List.map_map, List.enum_map_snd])
      (fun p hp => (List.mem_filter.mp hp).1)
    rw [List.filterMap_map] at hres
    rw [hres]
    ext n
    simp only [List.mem_toFinset, List.mem_map, List.mem_filter,
      decide_eq_true_eq]
    constructor
    · rintro ⟨p, ⟨_, hreq⟩, rfl⟩
      exact hreq
    · intro hn
      obtain ⟨p, hp, hname⟩ := hknown n hn
      exact ⟨p, ⟨hp, hname ▸ hn⟩, hname⟩

/-- Evaluation point for `set_direct_permissions_guard`: in `grantStore`
the actor holds exactly the requested `document:read` for project 3, so
the replacement succeeds and the target's grants become exactly that
set. -/
theorem set_direct_permissions_guard_witness :
    ∃ s' cnt,
      set_user_permissions_for_project grantStore 1 3 2 ["document:read"] =
        .ok (s', cnt) ∧
      direct_permission_names s' 2 3 =
        requested_permissions ["document:read"] :=
  (set_direct_permissions_guard grantStore 1 3 2 ["document:read"]
    (by decide) (by decide)).2 (Or.inr (by decide))

/-! ### Seeding lemmas -/

/-- A left fold of `max` bounds the start value and every element. -/
lemma le_foldl_max (l : List Nat) (a : Nat) :
    a ≤ l.foldl max a ∧ ∀ x ∈ l, x ≤ l.foldl max a := by
  induction l generalizing a with
  | nil => exact ⟨le_refl a, by simp⟩
  | cons y t ih =>
      obtain ⟨h1, h2⟩ := ih (max a y)
      refine ⟨le_trans (le_max_left a y) h1, ?_⟩
      intro x hx
      rcases List.mem_cons.mp hx with rfl | hx
      · exact le_trans (le_max_right a x) h1
      · exact h2 x hx

lemma role_id_lt_next (s : Store) (r : Role) (hr : r ∈ s.roles) :
    r.id < next_role_id s := by
  unfold next_role_id
  have := (le_foldl_max (s.roles.map (fun x => x.id)) 0).2 r.id
    (List.mem_map.mpr ⟨r, hr, rfl⟩)
  omega

lemma perm_id_lt_next (s : Store) (p : Permission) (hp : p ∈ s.permissions) :
    p.id < next_permission_id s := by
  unfold next_permission_id
  have := (le_foldl_max (s.permissions.map (fun x => x.id)) 0).2 p.id
    (List.mem_map.mpr ⟨p, hp, rfl⟩)
  omega

lemma find?_append_some {α : Type} (l l₂ : List α) (q : α → Bool) (x : α)
    (h : l.find? q = some x) : (l ++ l₂).find? q = some x := by
  rw [List.find?_append, h]
  rfl

lemma find?_isSome_append {α : Type} (l l₂ : List α) (q : α → Bool)
    (h : (l.find? q).isSome = true) : ((l ++ l₂).find? q).isSome = true := by
  rw [List.find?_append, Option.isSome_or, h]
  rfl

/-- A fold preserves any property each step preserves. -/
lemma foldl_preserve {α β : Type} (f : β → α → β) (P : β → Prop)
    (hstep : ∀ b a, P b → P (f b a)) :
    ∀ (l : List α) (b : β), P b → P (l.foldl f b) := by
  intro l
  induction l with
  | nil => intro b hb; exact hb
  | cons a t ih => intro b hb; exact ih (f b a) (hstep b a hb)

lemma add_link_fields (role : Role) (p : Permission) (s : Store) :
    (add_link_if_absent role p s).roles = s.roles ∧
    (add_link_if_absent role p s).permissions = s.permissions ∧
    (add_link_if_absent role p s).userRoles = s.userRoles ∧
    (add_link_if_absent role p s).userPermissions = s.userPermissions := by
  unfold add_link_if_absent
  split <;> exact ⟨rfl, rfl, rfl, rfl⟩

lemma seed_permission_fields (role : Role) (t : Store) (pn : String) :
    (seed_permission role t pn).roles = t.roles ∧
    (seed_permission role t pn).userRoles = t.userRoles ∧
    (seed_permission role t pn).userPermissions = t.userPermissions := by
  unfold seed_permission
  split
  · exact ⟨(add_link_fields _ _ _).1, (add_link_fields _ _ _).2.2.1,
      (add_link_fields _ _ _).2.2.2⟩
  · exact ⟨(add_link_fields _ _ _).1, (add_link_fields _ _ _).2.2.1,
      (add_link_fields _ _ _).2.2.2⟩

lemma foldl_seed_permission_fields (role : Role) (pns : List String) :
    ∀ t : Store,
      ((pns.foldl (seed_permission role) t).roles = t.roles) ∧
      ((pns.foldl (seed_permission role) t).userRoles = t.userRoles) ∧
      ((pns.foldl (seed_permission role) t).userPermissions =
        t.userPermissions) := by
  induction pns with
  | nil => intro t; exact ⟨rfl, rfl, rfl⟩
  | cons pn rest ih =>
      intro t
      simp only [List.foldl_cons]
      obtain ⟨h1, h2, h3⟩ := ih (seed_permission role t pn)
      obtain ⟨g1, g2, g3⟩ := seed_permission_fields role t pn
      exact ⟨h1.trans g1, h2.trans g2, h3.trans g3⟩

lemma seed_role_fields (t : Store) (e : String × String × List String) :
    (seed_role t e).userRoles = t.userRoles ∧
    (seed_role t e).userPermissions = t.userPermissions := by
  unfold seed_role
  split
  · exact ⟨(foldl_seed_permission_fields _ _ _).2.1,
      (foldl_seed_permission_fields _ _ _).2.2⟩
  · exact ⟨(foldl_seed_permission_fields _ _ _).2.1,
      (foldl_seed_permission_fields _ _ _).2.2⟩

lemma seed_fields (s : Store) :
    (seed_rbac_data s).userRoles = s.userRoles ∧
    (seed_rbac_data s).userPermissions = s.userPermissions := by
  unfold seed_rbac_data
  have h := foldl_preserve seed_role
    (fun t => t.userRoles = s.userRoles ∧ t.userPermissions = s.userPermissions)
    (fun t e ht => ⟨(seed_role_fields t e).1.trans ht.1,
      (seed_role_fields t e).2.trans ht.2⟩)
    DEFAULT_ROLES s ⟨rfl, rfl⟩
  exact h

/-- Case equation: the permission row exists. -/
lemma seed_permission_eq_found (role : Role) (t : Store) (pn : String)
    (p : Permission)
    (h : t.permissions.find? (fun x => x.name == pn) = some p) :
    seed_permission role t pn = add_link_if_absent role p t := by
  unfold seed_permission
  rw [h]

/-- Case equation: the permission row is created. -/
lemma seed_permission_eq_created (role : Role) (t : Store) (pn : String)
    (h : t.permissions.find? (fun x => x.name == pn) = none) :
    seed_permission role t pn =
      add_link_if_absent role
        ⟨next_permission_id t, pn, (split_perm_name pn).1,
          (split_perm_name pn).2⟩
        { t with permissions := t.permissions ++
            [⟨next_permission_id t, pn, (split_perm_name pn).1,
              (split_perm_name pn).2⟩] } := by
  unfold seed_permission
  rw [h]

lemma add_link_stable (role : Role) (p : Permission) (s : Store)
    (q : RolePermission → Bool)
    (hq : (s.rolePermissions.find? q).isSome = true) :
    ((add_link_if_absent role p s).rolePermissions.find? q).isSome = true := by
  unfold add_link_if_absent
  split
  · exact hq
  · exact find?_isSome_append _ _ _ hq

/-- After `add_link_if_absent`, the edge is present. -/
lemma add_link_post (role : Role) (p : Permission) (s : Store) :
    ((add_link_if_absent role p s).rolePermissions.find? (fun rp =>
      rp.role_id == role.id && rp.permission_id == p.id)).isSome = true := by
  unfold add_link_if_absent
  split
  · next hc => exact hc
  · simp [List.find?_append]

/-- `seed_permission` never disturbs an existing permission-row lookup or
an existing edge: it only appends. -/
lemma seed_permission_stable (role : Role) (t : Store) (pn : String) :
    (∀ (q : Permission → Bool) (p : Permission),
      t.permissions.find? q = some p →
      (seed_permission role t pn).permissions.find? q = some p) ∧
    (∀ q : RolePermission → Bool,
      (t.rolePermissions.find? q).isSome = true →
      ((seed_permission role t pn).rolePermissions.find? q).isSome = true) := by
  constructor
  · intro q p0 hq
    rcases h : t.permissions.find? (fun x => x.name == pn) with _ | p
    · rw [seed_permission_eq_created role t pn h, (add_link_fields _ _ _).2.1]
      exact find?_append_some _ _ _ _ hq
    · rw [seed_permission_eq_found role t pn p h, (add_link_fields _ _ _).2.1]
      exact hq
  · intro q hq
    rcases h : t.permissions.find? (fun x => x.name == pn) with _ | p
    · rw [seed_permission_eq_created role t pn h]
      exact add_link_stable _ _ _ _ hq
    · rw [seed_permission_eq_found role t pn p h]
      exact add_link_stable _ _ _ _ hq

lemma perm_seeded_stable (role : Role) (t : Store) (pn : String)
    (rid : Nat) (x : String) (h : perm_seeded t rid x) :
    perm_seeded (seed_permission role t pn) rid x := by
  obtain ⟨p, hp, hl⟩ := h
  exact ⟨p, (seed_permission_stable role t pn).1 _ p hp,
    (seed_permission_stable role t pn).2 _ hl⟩

lemma perm_seeded_stable_foldl (role : Role) (pns : List String)
    (t : Store) (rid : Nat) (x : String) (h : perm_seeded t rid x) :
    perm_seeded (pns.foldl (seed_permission role) t) rid x :=
  foldl_preserve (seed_permission role) (fun b => perm_seeded b rid x)
    (fun b a hb => perm_seeded_stable role b a rid x hb) pns t h

/-- After `seed_permission role t pn`, the name `pn` is seeded for the
role. -/
lemma seed_permission_post (role : Role) (t : Store) (pn : String) :
    perm_seeded (seed_permission role t pn) role.id pn := by
  rcases h : t.permissions.find? (fun x => x.name == pn) with _ | p
  · rw [seed_permission_eq_created role t pn h]
    refine ⟨⟨next_permission_id t, pn, (split_perm_name pn).1,
      (split_perm_name pn).2⟩, ?_, add_link_post _ _ _⟩
    rw [(add_link_fields _ _ _).2.1]
    rw [List.find?_append, h]
    simp
  · rw [seed_permission_eq_found role t pn p h]
    refine ⟨p, ?_, add_link_post _ _ _⟩
    rw [(add_link_fields _ _ _).2.1]
    exact h

/-- After the inner fold, every name of the bundle is seeded for the
role. -/
lemma foldl_seed_permission_post (role : Role) (pns : List String) :
    ∀ t, ∀ pn ∈ pns,
      perm_seeded (pns.foldl (seed_permission role) t) role.id pn := by
  induction pns with
  | nil => intro t pn hpn; cases hpn
  | cons pn0 rest ih =>
      intro t pn hpn
      simp only [List.foldl_cons]
      rcases List.mem_cons.mp hpn with rfl | hpn
      · exact perm_seeded_stable_foldl role rest _ _ _
          (seed_permission_post role t pn)
      · exact ih (seed_permission role t pn0) pn hpn

/-- Case equation: the role row exists. -/
lemma seed_role_eq_found (t : Store) (e : String × String × List String)
    (r : Role) (h : t.roles.find? (fun x => x.name == e.1) = some r) :
    seed_role t e =
      (e.2.2).foldl (seed_permission { r with description := e.2.1 })
        { t with roles := t.roles.map (fun r' =>
            if r'.id == r.id then { r' with description := e.2.1 }
            else r') } := by
  unfold seed_role
  rw [h]

/-- Case equation: the role row is created. -/
lemma seed_role_eq_created (t : Store) (e : String × String × List String)
    (h : t.roles.find? (fun x => x.name == e.1) = none) :
    seed_role t e =
      (e.2.2).foldl (seed_permission ⟨next_role_id t, e.1, e.2.1⟩)
        { t with roles := t.roles ++ [⟨next_role_id t, e.1, e.2.1⟩] } := by
  unfold seed_role
  rw [h]

lemma seed_permission_wf (role : Role) (t : Store) (pn : String)
    (h : (t.permissions.map (fun p => p.id)).Nodup) :
    ((seed_permission role t pn).permissions.map (fun p => p.id)).Nodup := by
  rcases hf : t.permissions.find? (fun x => x.name == pn) with _ | p
  · rw [seed_permission_eq_created role t pn hf, (add_link_fields _ _ _).2.1]
    rw [List.map_append, List.nodup_append]
    refine ⟨h, List.nodup_singleton _, ?_⟩
    intro a ha hb
    simp only [List.map_cons, List.map_nil, List.mem_singleton] at hb
    obtain ⟨q, hq, rfl⟩ := List.mem_map.mp ha
    have := perm_id_lt_next t q hq
    omega
  · rw [seed_permission_eq_found role t pn p hf, (add_link_fields _ _ _).2.1]
    exact h

lemma roles_unchanged_wf_foldl (role : Role) (pns : List String) (t : Store)
    (h : Store.wf t) : Store.wf (pns.foldl (seed_permission role) t) := by
  refine foldl_preserve (seed_permission role) Store.wf ?_ pns t h
  intro b a hb
  exact ⟨(seed_permission_fields role b a).1 ▸ hb.1,
    seed_permission_wf role b a hb.2⟩

lemma seed_role_wf (t : Store) (e : String × String × List String)
    (h : Store.wf t) : Store.wf (seed_role t e) := by
  rcases hf : t.roles.find? (fun x => x.name == e.1) with _ | r
  · rw [seed_role_eq_created t e hf]
    apply roles_unchanged_wf_foldl
    constructor
    · simp only [List.map_append]
      rw [List.nodup_append]
      refine ⟨h.1, List.nodup_singleton _, ?_⟩
      intro a ha hb
      simp only [List.map_cons, List.map_nil, List.mem_singleton] at hb
      obtain ⟨q, hq, rfl⟩ := List.mem_map.mp ha
      have := role_id_lt_next t q hq
      omega
    · exact h.2
  · rw [seed_role_eq_found t e r hf]
    apply roles_unchanged_wf_foldl
    constructor
    · have hids : (t.roles.map (fun r' =>
          if r'.id == r.id then { r' with description := e.2.1 }
          else r')).map (fun x => x.id) = t.roles.map (fun x => x.id) := by
        rw [List.map_map]
        apply List.map_congr_left
        intro a _
        by_cases hb : a.id = r.id <;> simp [hb]
      simp only []
      rw [hids]
      exact h.1
    · exact h.2

/-- After its own pass, a `DEFAULT_ROLES` entry is fully seeded. -/
lemma seed_role_post (t : Store) (e : String × String × List String)
    (hwf : Store.wf t) : role_seeded (seed_role t e) e := by
  rcases hf : t.roles.find? (fun x => x.name == e.1) with _ | r
  · rw [seed_role_eq_created t e hf]
    have hroles := (foldl_seed_permission_fields ⟨next_role_id t, e.1, e.2.1⟩
      e.2.2 { t with roles := t.roles ++ [⟨next_role_id t, e.1, e.2.1⟩] }).1
    refine ⟨⟨next_role_id t, e.1, e.2.1⟩, ?_, ?_, ?_⟩
    · rw [hroles]
      simp only []
      rw [List.find?_append, hf]
      simp
    · intro r' hr' hid
      rw [hroles] at hr'
      simp only [] at hr'
      rcases List.mem_append.mp hr' with hr' | hr'
      · exfalso
        have := role_id_lt_next t r' hr'
        simp only [] at hid
        omega
      · simp only [List.mem_singleton] at hr'
        rw [hr']
    · intro pn hpn
      exact foldl_seed_permission_post _ e.2.2 _ pn hpn
  · rw [seed_role_eq_found t e r hf]
    have hroles := (foldl_seed_permission_fields
      { r with description := e.2.1 } e.2.2
      { t with roles := t.roles.map (fun r' =>
          if r'.id == r.id then { r' with description := e.2.1 }
          else r') }).1
    have hpred : ((fun x : Role => x.name == e.1) ∘ (fun r' : Role =>
        if r'.id == r.id then { r' with description := e.2.1 } else r')) =
        (fun x : Role => x.name == e.1) := by
      funext r'
      by_cases hb : r'.id = r.id <;> simp [Function.comp, hb]
    refine ⟨{ r with description := e.2.1 }, ?_, ?_, ?_⟩
    · rw [hroles]
      simp only []
      rw [List.find?_map, hpred, hf]
      simp
    · intro r' hr' hid
      rw [hroles] at hr'
      simp only [] at hr'
      obtain ⟨r₀, hr₀, rfl⟩ := List.mem_map.mp hr'
      by_cases hb : r₀.id = r.id
      · simp [hb]
      · exfalso
        have hid' : (if r₀.id == r.id then { r₀ with description := e.2.1 }
            else r₀).id = r₀.id := by simp [hb]
        rw [hid'] at hid
        exact hb hid
    · intro pn hpn
      exact foldl_seed_permission_post _ e.2.2 _ pn hpn

/-- A later pass for an entry with a different role name does not disturb a
fully seeded entry. -/
lemma role_seeded_preserve (t : Store) (e e' : String × String × List String)
    (hwf : Store.wf t) (hne : e'.1 ≠ e.1) (h : role_seeded t e) :
    role_seeded (seed_role t e') e := by
  obtain ⟨r, hfind, hdesc, hperm⟩ := h
  have hrname : r.name = e.1 := by
    have := List.find?_some hfind
    simpa using this
  have hrmem := List.mem_of_find?_eq_some hfind
  rcases hf' : t.roles.find? (fun x => x.name == e'.1) with _ | r₂
  · rw [seed_role_eq_created t e' hf']
    have hroles := (foldl_seed_permission_fields
      ⟨next_role_id t, e'.1, e'.2.1⟩ e'.2.2
      { t with roles := t.roles ++ [⟨next_role_id t, e'.1, e'.2.1⟩] }).1
    refine ⟨r, ?_, ?_, ?_⟩
    · rw [hroles]
      simp only []
      exact find?_append_some _ _ _ _ hfind
    · intro r' hr' hid
      rw [hroles] at hr'
      simp only [] at hr'
      rcases List.mem_append.mp hr' with hr' | hr'
      · exact hdesc r' hr' hid
      · exfalso
        simp only [List.mem_singleton] at hr'
        have := role_id_lt_next t r hrmem
        rw [hr'] at hid
        simp only [] at hid
        omega
    · intro pn hpn
      exact perm_seeded_stable_foldl _ _ _ _ _ (hperm pn hpn)
  · rw [seed_role_eq_found t e' r₂ hf']
    have hroles := (foldl_seed_permission_fields
      { r₂ with description := e'.2.1 } e'.2.2
      { t with roles := t.roles.map (fun r' =>
          if r'.id == r₂.id then { r' with description := e'.2.1 }
          else r') }).1
    have hr₂name : r₂.name = e'.1 := by
      have := List.find?_some hf'
      simpa using this
    have hr₂mem := List.mem_of_find?_eq_some hf'
    have hidne : r.id ≠ r₂.id := by
      intro he
      have heq : r = r₂ := List.inj_on_of_nodup_map hwf.1 hrmem hr₂mem he
      exact hne (by rw [← hr₂name, ← heq, hrname])
    have hpred : ((fun x : Role => x.name == e.1) ∘ (fun r' : Role =>
        if r'.id == r₂.id then { r' with description := e'.2.1 } else r')) =
        (fun x : Role => x.name == e.1) := by
      funext r'
      by_cases hb : r'.id = r₂.id <;> simp [Function.comp, hb]
    refine ⟨r, ?_, ?_, ?_⟩
    · rw [hroles]
      simp only []
      rw [List.find?_map, hpred, hfind]
      simp [hidne]
    · intro r' hr' hid
      rw [hroles] at hr'
      simp only [] at hr'
      obtain ⟨r₀, hr₀, rfl⟩ := List.mem_map.mp hr'
      by_cases hb : r₀.id = r₂.id
      · exfalso
        have hid' : (if r₀.id == r₂.id then { r₀ with description := e'.2.1 }
            else r₀).id = r₀.id := by
          by_cases hbb : r₀.id = r₂.id <;> simp [hbb]
        rw [hid'] at hid
        exact hidne (by rw [← hid, hb])
      · have hid' : (if r₀.id == r₂.id then { r₀ with description := e'.2.1 }
            else r₀) = r₀ := by simp [hb]
        rw [hid'] at hid ⊢
        exact hdesc r₀ hr₀ hid
    · intro pn hpn
      exact perm_seeded_stable_foldl _ _ _ _ _ (hperm pn hpn)

lemma role_seeded_preserve_foldl (es : List (String × String × List String)) :
    ∀ t e, Store.wf t → role_seeded t e → (∀ e' ∈ es, e'.1 ≠ e.1) →
      role_seeded (es.foldl seed_role t) e := by
  induction es with
  | nil => intro t e _ h _; exact h
  | cons e0 rest ih =>
      intro t e hwf h hne
      simp only [List.foldl_cons]
      exact ih (seed_role t e0) e (seed_role_wf t e0 hwf)
        (role_seeded_preserve t e e0 hwf (hne e0 (List.mem_cons_self e0 rest)) h)
        (fun e' he' => hne e' (List.mem_cons_of_mem e0 he'))

lemma foldl_seed_role_wf (es : List (String × String × List String))
    (t : Store) (h : Store.wf t) : Store.wf (es.foldl seed_role t) :=
  foldl_preserve seed_role Store.wf (fun b a hb => seed_role_wf b a hb) es t h

/-- After one full pass over entries with pairwise distinct names, every
entry is fully seeded. -/
lemma seed_entries_post (es : List (String × String × List String)) :
    ∀ t, Store.wf t → (es.map (fun e => e.1)).Nodup →
      ∀ e ∈ es, role_seeded (es.foldl seed_role t) e := by
  induction es with
  | nil => intro t _ _ e he; cases he
  | cons e0 rest ih =>
      intro t hwf hnd e he
      simp only [List.foldl_cons]
      rw [List.map_cons, List.nodup_cons] at hnd
      rcases List.mem_cons.mp he with rfl | he
      · exact role_seeded_preserve_foldl rest (seed_role t e) e
          (seed_role_wf t e hwf) (seed_role_post t e hwf)
          (fun e' he' heq => hnd.1 (List.mem_map.mpr ⟨e', he', heq⟩))
      · exact ih (seed_role t e0) (seed_role_wf t e0 hwf) hnd.2 e he

/-- A fully seeded permission name makes its seeding step the identity. -/
lemma foldl_seed_permission_id (role : Role) (pns : List String) :
    ∀ t, (∀ pn ∈ pns, perm_seeded t role.id pn) →
      pns.foldl (seed_permission role) t = t := by
  induction pns with
  | nil => intro t _; rfl
  | cons pn rest ih =>
      intro t h
      simp only [List.foldl_cons]
      have hstep : seed_permission role t pn = t := by
        obtain ⟨p, hp, hl⟩ := h pn (List.mem_cons_self pn rest)
        rw [seed_permission_eq_found role t pn p hp]
        unfold add_link_if_absent
        rw [if_pos hl]
      rw [hstep]
      exact ih t (fun pn' h' => h pn' (List.mem_cons_of_mem pn h'))

/-- A fully seeded entry makes its seeding pass the identity. -/
lemma seed_role_id (t : Store) (e : String × String × List String)
    (h : role_seeded t e) : seed_role t e = t := by
  obtain ⟨r, hfind, hdesc, hperm⟩ := h
  have hrmem := List.mem_of_find?_eq_some hfind
  rw [seed_role_eq_found t e r hfind]
  have hmap : t.roles.map (fun r' =>
      if r'.id == r.id then { r' with description := e.2.1 } else r') =
      t.roles := by
    have hcongr : ∀ r' ∈ t.roles,
        (if r'.id == r.id then { r' with description := e.2.1 } else r') =
          id r' := by
      intro r' hr'
      by_cases hb : r'.id = r.id
      · have hd := hdesc r' hr' hb
        have hc : (r'.id == r.id) = true := by simp [hb]
        rw [if_pos hc]
        cases r'
        simp_all
      · simp [hb]
    rw [List.map_congr_left hcongr, List.map_id]
  have hrd : ({ r with description := e.2.1 } : Role) = r := by
    have hd := hdesc r hrmem rfl
    cases r
    simp_all
  rw [hmap, hrd]
  exact foldl_seed_permission_id r e.2.2 t hperm

lemma foldl_seed_role_id (es : List (String × String × List String)) :
    ∀ t, (∀ e ∈ es, role_seeded t e) → es.foldl seed_role t = t := by
  induction es with
  | nil => intro t _; rfl
  | cons e0 rest ih =>
      intro t h
      simp only [List.foldl_cons]
      rw [seed_role_id t e0 (h e0 (List.mem_cons_self e0 rest))]
      exact ih t (fun e he => h e (List.mem_cons_of_mem e0 he))

/-- Seeding never alters the id or the name of an existing role row: it
only refreshes descriptions and appends new rows. -/
lemma seed_role_id_name (t : Store) (e : String × String × List String) :
    ∃ tail, (seed_role t e).roles.map (fun r => (r.id, r.name)) =
      t.roles.map (fun r => (r.id, r.name)) ++ tail := by
  rcases hf : t.roles.find? (fun x => x.name == e.1) with _ | r
  · rw [seed_role_eq_created t e hf]
    refine ⟨[(next_role_id t, e.1)], ?_⟩
    rw [(foldl_seed_permission_fields ⟨next_role_id t, e.1, e.2.1⟩ e.2.2
      { t with roles := t.roles ++ [⟨next_role_id t, e.1, e.2.1⟩] }).1]
    simp only []
    rw [List.map_append]
    rfl
  · rw [seed_role_eq_found t e r hf]
    refine ⟨[], ?_⟩
    rw [(foldl_seed_permission_fields { r with description := e.2.1 } e.2.2
      { t with roles := t.roles.map (fun r' =>
          if r'.id == r.id then { r' with description := e.2.1 }
          else r') }).1]
    simp only [List.append_nil]
    rw [List.map_map]
    apply List.map_congr_left
    intro a _
    by_cases hb : a.id = r.id <;> simp [hb]

lemma seed_roles_id_name (s : Store) :
    ∃ tail, (seed_rbac_data s).roles.map (fun r => (r.id, r.name)) =
      s.roles.map (fun r => (r.id, r.name)) ++ tail := by
  have hgen : ∀ (es : List (String × String × List String)) (t : Store),
      ∃ tail, (es.foldl seed_role t).roles.map (fun r => (r.id, r.name)) =
        t.roles.map (fun r => (r.id, r.name)) ++ tail := by
    intro es
    induction es with
    | nil => intro t; exact ⟨[], by simp⟩
    | cons e rest ih =>
        intro t
        simp only [List.foldl_cons]
        obtain ⟨t1, h1⟩ := seed_role_id_name t e
        obtain ⟨t2, h2⟩ := ih (seed_role t e)
        exact ⟨t1 ++ t2, by rw [h2, h1, List.append_assoc]⟩
  exact hgen DEFAULT_ROLES s

/-- Seeding never duplicates a role name. -/
lemma seed_role_names_nodup (t : Store) (e : String × String × List String)
    (h : (t.roles.map (fun r => r.name)).Nodup) :
    ((seed_role t e).roles.map (fun r => r.name)).Nodup := by
  rcases hf : t.roles.find? (fun x => x.name == e.1) with _ | r
  · rw [seed_role_eq_created t e hf]
    rw [(foldl_seed_permission_fields ⟨next_role_id t, e.1, e.2.1⟩ e.2.2
      { t with roles := t.roles ++ [⟨next_role_id t, e.1, e.2.1⟩] }).1]
    simp only []
    rw [List.map_append, List.nodup_append]
    refine ⟨h, List.nodup_singleton _, ?_⟩
    intro a ha hb
    simp only [List.map_cons, List.map_nil, List.mem_singleton] at hb
    subst hb
    rw [List.find?_eq_none] at hf
    obtain ⟨r0, hr0, hname⟩ := List.mem_map.mp ha
    exact hf r0 hr0 (by simp [hname])
  · rw [seed_role_eq_found t e r hf]
    rw [(foldl_seed_permission_fields { r with description := e.2.1 } e.2.2
      { t with roles := t.roles.map (fun r' =>
          if r'.id == r.id then { r' with description := e.2.1 }
          else r') }).1]
    simp only []
    have hnames : (t.roles.map (fun r' =>
        if r'.id == r.id then { r' with description := e.2.1 }
        else r')).map (fun x => x.name) = t.roles.map (fun x => x.name) := by
      rw [List.map_map]
      apply List.map_congr_left
      intro a _
      by_cases hb : a.id = r.id <;> simp [hb]
    rw [hnames]
    exact h

/-- Seeding never duplicates a permission name. -/
lemma seed_permission_names_nodup (role : Role) (t : Store) (pn : String)
    (h : (t.permissions.map (fun p => p.name)).Nodup) :
    ((seed_permission role t pn).permissions.map
      (fun p => p.name)).Nodup := by
  rcases hfp : t.permissions.find? (fun x => x.name == pn) with _ | p
  · rw [seed_permission_eq_created role t pn hfp,
      (add_link_fields _ _ _).2.1]
    simp only []
    rw [List.map_append, List.nodup_append]
    refine ⟨h, List.nodup_singleton _, ?_⟩
    intro a ha hb
    simp only [List.map_cons, List.map_nil, List.mem_singleton] at hb
    subst hb
    rw [List.find?_eq_none] at hfp
    obtain ⟨p0, hp0, hname⟩ := List.mem_map.mp ha
    exact hfp p0 hp0 (by simp [hname])
  · rw [seed_permission_eq_found role t pn p hfp,
      (add_link_fields _ _ _).2.1]
    exact h

lemma seed_role_perm_names_nodup (t : Store)
    (e : String × String × List String)
    (h : (t.permissions.map (fun p => p.name)).Nodup) :
    ((seed_role t e).permissions.map (fun p => p.name)).Nodup := by
  rcases hf : t.roles.find? (fun x => x.name == e.1) with _ | r
  · rw [seed_role_eq_created t e hf]
    exact foldl_preserve (seed_permission ⟨next_role_id t, e.1, e.2.1⟩)
      (fun b => (b.permissions.map (fun p => p.name)).Nodup)
      (fun b a hb => seed_permission_names_nodup _ b a hb) e.2.2
      { t with roles := t.roles ++ [⟨next_role_id t, e.1, e.2.1⟩] } h
  · rw [seed_role_eq_found t e r hf]
    exact foldl_preserve (seed_permission { r with description := e.2.1 })
      (fun b => (b.permissions.map (fun p => p.name)).Nodup)
      (fun b a hb => seed_permission_names_nodup _ b a hb) e.2.2
      { t with roles := t.roles.map (fun r' =>
          if r'.id == r.id then { r' with description := e.2.1 }
          else r') } h

/-- Seeding never duplicates a role→permission edge. -/
lemma add_link_nodup (role : Role) (p : Permission) (s : Store)
    (h : s.rolePermissions.Nodup) :
    (add_link_if_absent role p s).rolePermissions.Nodup := by
  unfold add_link_if_absent
  split
  · exact h
  · next hc =>
      rw [List.nodup_append]
      refine ⟨h, List.nodup_singleton _, ?_⟩
      intro a ha hb
      simp only [List.mem_singleton] at hb
      subst hb
      have hnone : s.rolePermissions.find? (fun rp =>
          rp.role_id == role.id && rp.permission_id == p.id) = none := by
        rcases hx : s.rolePermissions.find? (fun rp =>
            rp.role_id == role.id && rp.permission_id == p.id) with _ | x
        · exact hx
        · exact absurd (by rw [hx]; rfl) hc
      rw [List.find?_eq_none] at hnone
      exact hnone _ ha (by simp)

lemma seed_permission_links_nodup (role : Role) (t : Store) (pn : String)
    (h : t.rolePermissions.Nodup) :
    (seed_permission role t pn).rolePermissions.Nodup := by
  rcases hfp : t.permissions.find? (fun x => x.name == pn) with _ | p
  · rw [seed_permission_eq_created role t pn hfp]
    exact add_link_nodup _ _ _ h
  · rw [seed_permission_eq_found role t pn p hfp]
    exact add_link_nodup _ _ _ h

lemma seed_role_links_nodup (t : Store) (e : String × String × List String)
    (h : t.rolePermissions.Nodup) :
    (seed_role t e).rolePermissions.Nodup := by
  rcases hf : t.roles.find? (fun x => x.name == e.1) with _ | r
  · rw [seed_role_eq_created t e hf]
    exact foldl_preserve (seed_permission ⟨next_role_id t, e.1, e.2.1⟩)
      (fun b => b.rolePermissions.Nodup)
      (fun b a hb => seed_permission_links_nodup _ b a hb) e.2.2
      { t with roles := t.roles ++ [⟨next_role_id t, e.1, e.2.1⟩] } h
  · rw [seed_role_eq_found t e r hf]
    exact foldl_preserve (seed_permission { r with description := e.2.1 })
      (fun b => b.rolePermissions.Nodup)
      (fun b a hb => seed_permission_links_nodup _ b a hb) e.2.2
      { t with roles := t.roles.map (fun r' =>
          if r'.id == r.id then { r' with description := e.2.1 }
          else r') } h

/-- **C9.** Seeding is idempotent from any well-formed store (unique
primary keys): a second run returns the very same store; seeding never
touches `user_roles` or `user_permissions` rows; existing role rows keep
their id and name (new rows are only appended); and seeding preserves
uniqueness of role names, permission names and role→permission edges — it
inserts each default row only if absent. -/
theorem seed_rbac_idempotent (s : Store) (hwf : Store.wf s) :
    seed_rbac_data (seed_rbac_data s) = seed_rbac_data s ∧
    (seed_rbac_data s).userRoles = s.userRoles ∧
    (seed_rbac_data s).userPermissions = s.userPermissions ∧
    (∃ tail, (seed_rbac_data s).roles.map (fun r => (r.id, r.name)) =
      s.roles.map (fun r => (r.id, r.name)) ++ tail) ∧
    ((s.roles.map (fun r => r.name)).Nodup →
      ((seed_rbac_data s).roles.map (fun r => r.name)).Nodup) ∧
    ((s.permissions.map (fun p => p.name)).Nodup →
      ((seed_rbac_data s).permissions.map (fun p => p.name)).Nodup) ∧
    (s.rolePermissions.Nodup → (seed_rbac_data s).rolePermissions.Nodup) := by
  refine ⟨?_, (seed_fields s).1, (seed_fields s).2, seed_roles_id_name s,
    ?_, ?_, ?_⟩
  · have hpost := seed_entries_post DEFAULT_ROLES s hwf (by decide)
    exact foldl_seed_role_id DEFAULT_ROLES (seed_rbac_data s) hpost
  · intro h
    exact foldl_preserve seed_role
      (fun b => (b.roles.map (fun r => r.name)).Nodup)
      (fun b a hb => seed_role_names_nodup b a hb) DEFAULT_ROLES s h
  · intro h
    exact foldl_preserve seed_role
      (fun b => (b.permissions.map (fun p => p.name)).Nodup)
      (fun b a hb => seed_role_perm_names_nodup b a hb) DEFAULT_ROLES s h
  · intro h
    exact foldl_preserve seed_role (fun b => b.rolePermissions.Nodup)
      (fun b a hb => seed_role_links_nodup b a hb) DEFAULT_ROLES s h

/-- Evaluation point for `seed_rbac_idempotent`: `conflictStore` (one
role row, one assignment) is well-formed, so seeding it twice equals
seeding it once and its assignment rows survive. -/
theorem seed_rbac_idempotent_witness :
    seed_rbac_data (seed_rbac_data conflictStore) =
      seed_rbac_data conflictStore ∧
    (seed_rbac_data conflictStore).userRoles = conflictStore.userRoles ∧
    (seed_rbac_data conflictStore).userPermissions =
      conflictStore.userPermissions ∧
    (∃ tail, (seed_rbac_data conflictStore).roles.map
        (fun r => (r.id, r.name)) =
      conflictStore.roles.map (fun r => (r.id, r.name)) ++ tail) ∧
    ((conflictStore.roles.map (fun r => r.name)).Nodup →
      ((seed_rbac_data conflictStore).roles.map (fun r => r.name)).Nodup) ∧
    ((conflictStore.permissions.map (fun p => p.name)).Nodup →
      ((seed_rbac_data conflictStore).permissions.map
        (fun p => p.name)).Nodup) ∧
    (conflictStore.rolePermissions.Nodup →
      (seed_rbac_data conflictStore).rolePermissions.Nodup) :=
  seed_rbac_idempotent conflictStore ⟨by decide, by decide⟩

end DocuCTRL
